import Mathlib

/-!
Shallow embedding of the SpacemanDMM lexer (src/dreammaker/lexer.rs) and
parser (src/dreammaker/parser.rs), together with theorems settling the
frozen claims about them.

Bytes are modelled as natural numbers below 256, byte streams as lists,
and the stateful Rust iterators as explicit state-passing functions.
Loops are given a fuel parameter; every theorem quantifying over fuel
either holds at all fuels or carries an explicit sufficient-fuel
hypothesis discharged by a concrete witness.
-/

set_option maxHeartbeats 1000000
set_option maxRecDepth 10000

/- ----------------------------------------------------------------------
Diagnostics: DMError, Location, Severity, Context.

Modelled from the spec: the types `DMError`, `Location`, `Severity` and the
diagnostic sink `Context` live outside src/ (they are imported from
`super` in both source files).  Spec section 3 gives `Location` as a
`(file_id, line, column)` triple, and spec section 6 gives a diagnostic as
`(location, severity, message, optional cause)` with
`severity between Hint, Warning, Error`, registered through
`register_error` into an ordered sink.
---------------------------------------------------------------------- -/

/-- A source location: file id, 1-based line and column. -/
structure Location where
  file : Nat
  line : Nat
  column : Nat
deriving DecidableEq, Repr

instance : Inhabited Location := ⟨⟨0, 0, 0⟩⟩

/-- Diagnostic severity, `Error` being the default for a fresh `DMError`. -/
inductive Severity where
  | Error
  | Warning
  | Hint
deriving DecidableEq, Repr

/-- A diagnostic: location, severity and message.  Fresh errors carry
`Severity.Error`; `set_severity` replaces the severity. -/
structure DMError where
  location : Location
  severity : Severity
  message : String
deriving DecidableEq, Repr

/-- `DMError::new` — a fresh diagnostic at `Error` severity. -/
def DMError.new (loc : Location) (msg : String) : DMError :=
  ⟨loc, Severity.Error, msg⟩

/-- `DMError::set_severity`. -/
def DMError.set_severity (e : DMError) (s : Severity) : DMError :=
  { e with severity := s }

/- ----------------------------------------------------------------------
IEEE-754 binary32 (`f32`) model.

The lexer stores `f32` values in `Token::Float` and consults
`f32::from_str` and the `Display` rendering of `f32` (shortest decimal
that round-trips).  These are Rust standard-library semantics, embedded
here over exact rational arithmetic.  A finite value is kept in the
canonical form `(-1)^neg * m * 2^exp2` with either `m = 0` and
`exp2 = -149`, or a subnormal `0 < m < 2^23` with `exp2 = -149`, or a
normal `2^23 <= m < 2^24` with `-149 <= exp2 <= 104`.
---------------------------------------------------------------------- -/

/-- An `f32` value in canonical sign/significand/scale form. -/
inductive F32 where
  | finite (neg : Bool) (m : Nat) (exp2 : Int)
  | inf (neg : Bool)
  | nan
deriving DecidableEq, Repr

/-- An unnormalized fraction with positive denominator, used for the exact
rational arithmetic of float parsing and printing.  Only operations with
kernel-friendly reduction behavior (no gcd normalization) are provided.  -/
structure Frac where
  num : Int
  den : Nat
deriving DecidableEq, Repr

/-- Fraction subtraction. -/
def Frac.sub (a b : Frac) : Frac := ⟨a.num * b.den - b.num * a.den, a.den * b.den⟩

/-- Fraction addition. -/
def Frac.add (a b : Frac) : Frac := ⟨a.num * b.den + b.num * a.den, a.den * b.den⟩

/-- Fraction division; the divisor must be positive. -/
def Frac.div (a b : Frac) : Frac := ⟨a.num * b.den, a.den * b.num.toNat⟩

/-- Halve a fraction. -/
def Frac.half (a : Frac) : Frac := ⟨a.num, 2 * a.den⟩

/-- Scale a fraction by an integer. -/
def Frac.mulInt (a : Frac) (n : Int) : Frac := ⟨a.num * n, a.den⟩

/-- Strict comparison of fractions. -/
def Frac.lt (a b : Frac) : Bool := a.num * b.den < b.num * a.den

/-- Equality test of fractions by cross-multiplication. -/
def Frac.eq (a b : Frac) : Bool := a.num * b.den = b.num * a.den

/-- Floor of a fraction. -/
def Frac.floor (a : Frac) : Int := Int.fdiv a.num a.den

/-- Ceiling of a fraction. -/
def Frac.ceil (a : Frac) : Int := -Int.fdiv (-a.num) a.den

/-- Integer power of two as a fraction, for either sign of the exponent. -/
def fracPow2 (e : Int) : Frac :=
  if 0 ≤ e then ⟨(2 ^ e.toNat : Nat), 1⟩ else ⟨1, 2 ^ (-e).toNat⟩

/-- Integer power of ten as a fraction, for either sign of the exponent. -/
def fracPow10 (e : Int) : Frac :=
  if 0 ≤ e then ⟨(10 ^ e.toNat : Nat), 1⟩ else ⟨1, 10 ^ (-e).toNat⟩

/-- Round-to-nearest, ties-to-even on an exact rational quotient. -/
def rneDiv (a b : Nat) : Nat :=
  let q := a / b
  let r := a % b
  if b < 2 * r then q + 1
  else if 2 * r < b then q
  else if q % 2 = 1 then q + 1 else q

/-- Round the positive rational `p / q` to the nearest multiple of `2 ^ e`,
ties to even, returning the multiplier. -/
def rneScaled (p q : Nat) (e : Int) : Nat :=
  if 0 ≤ e then rneDiv p (q * 2 ^ e.toNat) else rneDiv (p * 2 ^ (-e).toNat) q

/-- Bit length of a natural number (fuel-first, called with `n + 1`). -/
def natBitsAux : Nat → Nat → Nat
  | 0, _ => 0
  | _ + 1, 0 => 0
  | fuel + 1, n => natBitsAux fuel (n / 2) + 1

/-- Floor of the base-2 logarithm of a positive natural number. -/
def natLog2 (n : Nat) : Nat := natBitsAux (n + 1) n - 1

/-- Floor of the base-2 logarithm of the positive rational `p / q`. -/
def ratLog2 (p q : Nat) : Int :=
  let e0 : Int := (natLog2 p : Int) - (natLog2 q : Int)
  -- p / q lies in [2 ^ (e0 - 1), 2 ^ (e0 + 1)); pick the true binade.
  if 0 ≤ e0 then (if 2 ^ e0.toNat * q ≤ p then e0 else e0 - 1)
  else (if q ≤ 2 ^ (-e0).toNat * p then e0 else e0 - 1)

/-- Correctly round the rational `(-1)^neg * p / q` (with `p, q > 0` unless
`p = 0`) to an `f32`, round-to-nearest ties-to-even, as Rust's float
parsing does. -/
def roundF32 (neg : Bool) (p q : Nat) : F32 :=
  if p = 0 then F32.finite neg 0 (-149)
  else
    let z := ratLog2 p q
    if 127 < z then F32.inf neg
    else
      let e : Int := max (z - 23) (-149)
      let m := rneScaled p q e
      let me : Nat × Int := if 2 ^ 24 ≤ m then (m / 2, e + 1) else (m, e)
      if 104 < me.2 then F32.inf neg
      else if me.1 = 0 then F32.finite neg 0 (-149)
      else F32.finite neg me.1 me.2

/-- Digit value of a character, if it is an ASCII decimal digit. -/
def charDigitVal (c : Char) : Option Nat :=
  if 48 ≤ c.toNat ∧ c.toNat ≤ 57 then some (c.toNat - 48) else none

/-- Consume leading decimal digits, extending the accumulator `acc`;
returns the new accumulator, the number of digits consumed, and the rest. -/
def takeDigits : List Char → Nat → Nat → Nat × Nat × List Char
  | [], acc, n => (acc, n, [])
  | c :: cs, acc, n =>
    match charDigitVal c with
    | some d => takeDigits cs (acc * 10 + d) (n + 1)
    | none => (acc, n, c :: cs)

/-- `f32::from_str` — Rust's grammar `sign? (inf | infinity | nan | digits
[. digits?] | . digits) ([eE] sign? digits)?`, correctly rounded;
`none` models `Err(ParseFloatError)`. -/
def f32FromStr (s : String) : Option F32 :=
  let cs0 := s.data
  let sgn : Bool × List Char :=
    match cs0 with
    | '-' :: r => (true, r)
    | '+' :: r => (false, r)
    | r => (false, r)
  let neg := sgn.1
  let low := sgn.2.map Char.toLower
  if low = "inf".data ∨ low = "infinity".data then some (F32.inf neg)
  else if low = "nan".data then some F32.nan
  else
    let st1 := takeDigits sgn.2 0 0
    let st2 : Nat × Nat × List Char :=
      match st1.2.2 with
      | '.' :: r => let t := takeDigits r st1.1 0; (t.1, t.2.1, t.2.2)
      | r => (st1.1, 0, r)
    let mant := st2.1
    let nfrac := st2.2.1
    if st1.2.1 + nfrac = 0 then none
    else
      let fin : Int → Option F32 := fun e10 =>
        let p10 : Int := e10 - (nfrac : Int)
        if 0 ≤ p10 then some (roundF32 neg (mant * 10 ^ p10.toNat) 1)
        else some (roundF32 neg mant (10 ^ (-p10).toNat))
      match st2.2.2 with
      | [] => fin 0
      | c :: r =>
        if c = 'e' ∨ c = 'E' then
          let es : Bool × List Char :=
            match r with
            | '-' :: r2 => (true, r2)
            | '+' :: r2 => (false, r2)
            | r2 => (false, r2)
          let t := takeDigits es.2 0 0
          if t.2.1 = 0 ∨ t.2.2 ≠ [] then none
          else fin (if es.1 then -(t.1 : Int) else (t.1 : Int))
        else none

/-- Decimal digits of a positive natural number (the first argument is
fuel, always called with `n + 1`). -/
def natDigitsAux : Nat → Nat → List Char
  | 0, _ => []
  | _ + 1, 0 => []
  | fuel + 1, n => natDigitsAux fuel (n / 10) ++ [Char.ofNat (48 + n % 10)]

/-- Decimal rendering of a natural number. -/
def natToStr (n : Nat) : String :=
  if n = 0 then "0" else String.mk (natDigitsAux (n + 1) n)

/-- Shortest decimal `n * 10 ^ k` that rounds back (nearest, ties to even)
to the positive finite `f32` with significand `m` and scale `exp2`;
among the shortest candidates the one nearest the exact value is chosen.
This is the decimal selected by Rust's float `Display`. -/
def f32Shortest (m : Nat) (exp2 : Int) : Int × Int :=
  let v : Frac := (fracPow2 exp2).mulInt m
  let gapDown : Frac :=
    if m = 2 ^ 23 ∧ -149 < exp2 then fracPow2 (exp2 - 1) else fracPow2 exp2
  let lo : Frac := v.sub gapDown.half
  let hi : Frac := v.add (fracPow2 exp2).half
  let incl : Bool := m % 2 = 0
  let ks := (List.range 111).map (fun i => (45 : Int) - (i : Int))
  let pick : Int → Option (Int × Int) := fun k =>
    let step := fracPow10 k
    let nlo0 : Int := (lo.div step).ceil
    let nlo : Int := if ¬incl ∧ Frac.eq (step.mulInt nlo0) lo then nlo0 + 1 else nlo0
    let nhi0 : Int := (hi.div step).floor
    let nhi : Int := if ¬incl ∧ Frac.eq (step.mulInt nhi0) hi then nhi0 - 1 else nhi0
    if nlo ≤ nhi then
      let nf : Int := (v.div step).floor
      let dLow : Frac := v.sub (step.mulInt nf)
      let dHigh : Frac := (step.mulInt (nf + 1)).sub v
      let cand : Int :=
        if dLow.lt dHigh then nf
        else if dHigh.lt dLow then nf + 1
        else if nf % 2 = 0 then nf else nf + 1
      some (max nlo (min nhi cand), k)
    else none
  match ks.findSome? pick with
  | some nk => nk
  | none => (0, 0)

/-- Rust `Display` for `f32` (the `{}` rendering used by `format!`):
shortest round-tripping decimal, written without exponent. -/
def F32.display : F32 → String
  | F32.nan => "NaN"
  | F32.inf neg => if neg then "-inf" else "inf"
  | F32.finite neg m exp2 =>
    if m = 0 then (if neg then "-0" else "0")
    else
      let nk := f32Shortest m exp2
      let nn := nk.1.toNat
      let core :=
        if 0 ≤ nk.2 then natToStr nn ++ String.mk (List.replicate nk.2.toNat '0')
        else
          let p := 10 ^ (-nk.2).toNat
          let fr := natToStr (nn % p)
          natToStr (nn / p) ++ "." ++
            String.mk (List.replicate ((-nk.2).toNat - fr.length) '0') ++ fr
      if neg then "-" ++ core else core

/-- Errors of Rust integer parsing, with their `Display` renderings. -/
inductive ParseIntError where
  | Empty
  | InvalidDigit
  | PosOverflow
  | NegOverflow
deriving DecidableEq, Repr

/-- The `Display` text of a `ParseIntError`. -/
def ParseIntError.display : ParseIntError → String
  | ParseIntError.Empty => "cannot parse integer from empty string"
  | ParseIntError.InvalidDigit => "invalid digit found in string"
  | ParseIntError.PosOverflow => "number too large to fit in target type"
  | ParseIntError.NegOverflow => "number too small to fit in target type"

/-- Value of a character as a digit in the given radix, as in Rust's
`char::to_digit`. -/
def charRadixVal (radix : Nat) (c : Char) : Option Nat :=
  let v : Option Nat :=
    if 48 ≤ c.toNat ∧ c.toNat ≤ 57 then some (c.toNat - 48)
    else if 97 ≤ c.toNat ∧ c.toNat ≤ 122 then some (c.toNat - 97 + 10)
    else if 65 ≤ c.toNat ∧ c.toNat ≤ 90 then some (c.toNat - 65 + 10)
    else none
  match v with
  | some d => if d < radix then some d else none
  | none => none

/-- Accumulate the digits of `i32::from_str_radix`; overflow is checked
against the `i32` bounds at the end, which agrees with Rust's stepwise
checked arithmetic for all-nonnegative digit strings. -/
def i32DigitsVal (radix : Nat) : List Char → Nat → Except ParseIntError Nat
  | [], acc => Except.ok acc
  | c :: cs, acc =>
    match charRadixVal radix c with
    | some d => i32DigitsVal radix cs (acc * radix + d)
    | none => Except.error ParseIntError.InvalidDigit

/-- Decidable equality of `Except` results, for evaluating concrete runs. -/
instance {e a : Type} [DecidableEq e] [DecidableEq a] : DecidableEq (Except e a) :=
  fun x y =>
    match x, y with
    | Except.error u, Except.error v =>
      if h : u = v then isTrue (by rw [h]) else isFalse (fun hh => by cases hh; exact h rfl)
    | Except.error _, Except.ok _ => isFalse (fun hh => Except.noConfusion hh)
    | Except.ok _, Except.error _ => isFalse (fun hh => Except.noConfusion hh)
    | Except.ok u, Except.ok v =>
      if h : u = v then isTrue (by rw [h]) else isFalse (fun hh => by cases hh; exact h rfl)

/-- `i32::from_str_radix`. -/
def i32FromStrRadix (s : String) (radix : Nat) : Except ParseIntError Int :=
  let sgn : Bool × List Char :=
    match s.data with
    | '-' :: r => (true, r)
    | '+' :: r => (false, r)
    | r => (false, r)
  if sgn.2 = [] then Except.error ParseIntError.Empty
  else
    match i32DigitsVal radix sgn.2 0 with
    | Except.error e => Except.error e
    | Except.ok v =>
      if sgn.1 then
        if 2 ^ 31 < v then Except.error ParseIntError.NegOverflow
        else Except.ok (-(v : Int))
      else
        if 2 ^ 31 - 1 < v then Except.error ParseIntError.PosOverflow
        else Except.ok (v : Int)

/- ----------------------------------------------------------------------
Tokens and the punctuation table (lexer.rs lines 33-135).
---------------------------------------------------------------------- -/

/-- A punctuation token recognized by the language (lexer.rs `table!`). -/
inductive Punctuation where
  | Tab
  | Newline
  | Space
  | Not
  | NotEq
  | DoubleQuote
  | Hash
  | TokenPaste
  | Mod
  | ModAssign
  | BitAnd
  | And
  | BitAndAssign
  | SingleQuote
  | LParen
  | RParen
  | Mul
  | Pow
  | MulAssign
  | Add
  | PlusPlus
  | AddAssign
  | Comma
  | Sub
  | MinusMinus
  | SubAssign
  | Dot
  | Super
  | Ellipsis
  | Slash
  | BlockComment
  | LineComment
  | DivAssign
  | Colon
  | Semicolon
  | Less
  | LShift
  | LShiftAssign
  | LessEq
  | LessGreater
  | Assign
  | Eq
  | Greater
  | GreaterEq
  | RShift
  | RShiftAssign
  | QuestionMark
  | SafeDot
  | SafeColon
  | LBracket
  | RBracket
  | BitXor
  | BitXorAssign
  | LBrace
  | BlockString
  | BitOr
  | BitOrAssign
  | Or
  | RBrace
  | BitNot
  | NotEquiv
  | Equiv
  | In
deriving DecidableEq, Repr

/-- `PUNCT_TABLE` — byte strings paired with their punctuation, in the
source's order (sorted, except for the trailing keyword entry `in`). -/
def PUNCT_TABLE : List (List Nat × Punctuation) := [
  ([9], Punctuation.Tab),
  ([10], Punctuation.Newline),
  ([32], Punctuation.Space),
  ([33], Punctuation.Not),
  ([33, 61], Punctuation.NotEq),
  ([34], Punctuation.DoubleQuote),
  ([35], Punctuation.Hash),
  ([35, 35], Punctuation.TokenPaste),
  ([37], Punctuation.Mod),
  ([37, 61], Punctuation.ModAssign),
  ([38], Punctuation.BitAnd),
  ([38, 38], Punctuation.And),
  ([38, 61], Punctuation.BitAndAssign),
  ([39], Punctuation.SingleQuote),
  ([40], Punctuation.LParen),
  ([41], Punctuation.RParen),
  ([42], Punctuation.Mul),
  ([42, 42], Punctuation.Pow),
  ([42, 61], Punctuation.MulAssign),
  ([43], Punctuation.Add),
  ([43, 43], Punctuation.PlusPlus),
  ([43, 61], Punctuation.AddAssign),
  ([44], Punctuation.Comma),
  ([45], Punctuation.Sub),
  ([45, 45], Punctuation.MinusMinus),
  ([45, 61], Punctuation.SubAssign),
  ([46], Punctuation.Dot),
  ([46, 46], Punctuation.Super),
  ([46, 46, 46], Punctuation.Ellipsis),
  ([47], Punctuation.Slash),
  ([47, 42], Punctuation.BlockComment),
  ([47, 47], Punctuation.LineComment),
  ([47, 61], Punctuation.DivAssign),
  ([58], Punctuation.Colon),
  ([59], Punctuation.Semicolon),
  ([60], Punctuation.Less),
  ([60, 60], Punctuation.LShift),
  ([60, 60, 61], Punctuation.LShiftAssign),
  ([60, 61], Punctuation.LessEq),
  ([60, 62], Punctuation.LessGreater),
  ([61], Punctuation.Assign),
  ([61, 61], Punctuation.Eq),
  ([62], Punctuation.Greater),
  ([62, 61], Punctuation.GreaterEq),
  ([62, 62], Punctuation.RShift),
  ([62, 62, 61], Punctuation.RShiftAssign),
  ([63], Punctuation.QuestionMark),
  ([63, 46], Punctuation.SafeDot),
  ([63, 58], Punctuation.SafeColon),
  ([91], Punctuation.LBracket),
  ([93], Punctuation.RBracket),
  ([94], Punctuation.BitXor),
  ([94, 61], Punctuation.BitXorAssign),
  ([123], Punctuation.LBrace),
  ([123, 34], Punctuation.BlockString),
  ([124], Punctuation.BitOr),
  ([124, 61], Punctuation.BitOrAssign),
  ([124, 124], Punctuation.Or),
  ([125], Punctuation.RBrace),
  ([126], Punctuation.BitNot),
  ([126, 33], Punctuation.NotEquiv),
  ([126, 61], Punctuation.Equiv),
  ([105, 110], Punctuation.In)]

/-- A single DM token (lexer.rs `Token`). -/
inductive Token where
  | Eof
  | Punct (p : Punctuation)
  | Ident (name : String) (ws : Bool)
  | String (s : String)
  | InterpStringBegin (s : String)
  | InterpStringPart (s : String)
  | InterpStringEnd (s : String)
  | Resource (s : String)
  | Int (i : Int)
  | Float (f : F32)
deriving DecidableEq, Repr

/-- A token with a location attached. -/
structure LocatedToken where
  location : Location
  token : Token
deriving DecidableEq, Repr

/-- `is_digit` (lexer.rs line 241). -/
def is_digit (ch : Nat) : Bool := 48 ≤ ch ∧ ch ≤ 57

/-- `is_ident` (lexer.rs line 245). -/
def is_ident (ch : Nat) : Bool :=
  (97 ≤ ch ∧ ch ≤ 122) ∨ (65 ≤ ch ∧ ch ≤ 90) ∨ ch = 95

/-- `from_latin1` — Latin-1 bytes to a string (code points 0-255). -/
def from_latin1 (bytes : List Nat) : String :=
  String.mk (bytes.map Char.ofNat)

/-- The bytes of an ASCII string, for writing concrete inputs readably. -/
def strBytes (s : String) : List Nat := s.data.map Char.toNat

/-- An interpolation stack frame: saved end delimiter and bracket depth. -/
structure Interpolation where
  end_ : List Nat
  bracket_depth : Nat
deriving DecidableEq, Repr

/-- Directive state for specially-lexed preprocessor lines. -/
inductive Directive where
  | None
  | Hash
  | Ordinary
  | Stringy
deriving DecidableEq, Repr

/- ----------------------------------------------------------------------
The lexer state: the wrapped `LocationTracker` (input, loc, at_line_end)
plus the `Lexer` fields (next, final_newline, at_line_head, directive,
interp_stack) and the shared diagnostic context (errors).
---------------------------------------------------------------------- -/

/-- Combined state of `LocationTracker` and `Lexer`, with the diagnostic
context carried alongside.  The interpolation stack is kept with its top
as the list head (Rust pushes and pops at the vector's end). -/
structure LexState where
  input : List Nat
  loc : Location
  at_line_end : Bool
  next : Option Nat
  final_newline : Bool
  at_line_head : Bool
  directive : Directive
  interp_stack : List Interpolation
  errors : List DMError
deriving DecidableEq, Repr

/-- `Lexer::new` over a byte list for the given file id. -/
def initLexState (file : Nat) (bytes : List Nat) : LexState :=
  ⟨bytes, ⟨file, 0, 0⟩, true, none, false, true, Directive.None, [], []⟩

/-- `Context::register_error` — append to the ordered diagnostic sink. -/
def register_error (s : LexState) (e : DMError) : LexState :=
  { s with errors := s.errors ++ [e] }

/-- `HasLocation::error` for the lexer — a fresh error at the current
location. -/
def lexError (s : LexState) (msg : String) : DMError :=
  DMError.new s.loc msg

/-- `LocationTracker::next` — advance (line, column) per byte. -/
def tracker_next (s : LexState) : Option Nat × LexState :=
  let s :=
    if s.at_line_end then
      { s with at_line_end := false,
               loc := { s.loc with line := s.loc.line + 1, column := 0 } }
    else s
  match s.input with
  | [] => (none, s)
  | ch :: rest =>
    let s := { s with input := rest }
    let s := if ch = 10 then { s with at_line_end := true } else s
    let s := { s with loc := { s.loc with column := s.loc.column + 1 } }
    (some ch, s)

/-- `Lexer::next` (byte level) — one-slot putback plus line-head and
directive upkeep. -/
def lexNextByte (s : LexState) : Option Nat × LexState :=
  match s.next with
  | some b => (some b, { s with next := none })
  | none =>
    let prevLine := s.loc.line
    let p := tracker_next s
    let s :=
      if prevLine < p.2.loc.line then
        { p.2 with at_line_head := true, directive := Directive.None }
      else p.2
    match p.1 with
    | none => (none, s)
    | some ch =>
      let s := if ch ≠ 9 ∧ ch ≠ 32 then { s with at_line_head := false } else s
      (some ch, s)

/-- `Lexer::put_back`. -/
def put_back (v : Option Nat) (s : LexState) : LexState :=
  { s with next := v }

/-- `skip_block_comments` — nesting-counted; an unterminated comment at
EOF registers a diagnostic and stops. -/
def skip_block_comments : Nat → Nat → Nat × Nat → LexState → LexState
  | 0, _, _, s => s
  | fuel + 1, depth, buffer, s =>
    if depth = 0 then s
    else
      let p := lexNextByte s
      match p.1 with
      | none =>
        register_error p.2 (lexError p.2 "still skipping comments at end of file")
      | some v =>
        let buffer := (buffer.2, v)
        if buffer = (47, 42) then skip_block_comments fuel (depth + 1) buffer p.2
        else if buffer = (42, 47) then skip_block_comments fuel (depth - 1) buffer p.2
        else skip_block_comments fuel depth buffer p.2

/-- `skip_line_comment` — consume through end of physical line, honoring
backslash continuations and ignoring carriage returns. -/
def skip_line_comment : Nat → Bool → LexState → LexState
  | 0, _, s => s
  | fuel + 1, backslash, s =>
    let p := lexNextByte s
    match p.1 with
    | none => p.2
    | some ch =>
      if ch = 13 then skip_line_comment fuel backslash p.2
      else if backslash then skip_line_comment fuel false p.2
      else if ch = 10 then p.2
      else if ch = 92 then skip_line_comment fuel true p.2
      else skip_line_comment fuel false p.2

/-- `skip_ws` — the counter is 2 when newline skipping is armed, 1 after
one newline has been skipped, 0 otherwise. -/
def skip_ws : Nat → Nat → LexState → Option Nat × LexState
  | 0, _, s => (none, s)
  | fuel + 1, skip_newlines, s =>
    let p := lexNextByte s
    match p.1 with
    | none => (none, p.2)
    | some ch =>
      if ch = 13 then skip_ws fuel skip_newlines p.2
      else if (ch = 32 ∨ ch = 9) ∧ (¬p.2.at_line_head ∨ 0 < skip_newlines) then
        skip_ws fuel skip_newlines p.2
      else if ch = 10 ∧ skip_newlines = 2 then skip_ws fuel 1 p.2
      else (some ch, p.2)

/-- The digit-scanning loop of `read_number_inner`; digits are scanned in
`max(radix, 10)`, underscores skipped, `.`/`e` promote to float, and
`1.#INF` is rewritten to `inf`. -/
def read_number_inner_loop :
    Nat → Bool → Bool → Nat → String → LexState → (Bool × Nat × String) × LexState
  | 0, integer, _, radix, buf, s => ((integer, radix, buf), s)
  | fuel + 1, integer, exponent, radix, buf, s =>
    let p := lexNextByte s
    match p.1 with
    | some ch =>
      if ch = 95 then read_number_inner_loop fuel integer exponent radix buf p.2
      else if ch = 46 ∨ ch = 101 then
        read_number_inner_loop fuel false (exponent ∨ ch = 101) radix
          (buf.push (Char.ofNat ch)) p.2
      else if (ch = 43 ∨ ch = 45) ∧ exponent then
        read_number_inner_loop fuel integer exponent radix
          (buf.push (Char.ofNat ch)) p.2
      else if ch = 35 ∧ ¬integer then
        -- expect the suffix `INF`; on mismatch return the buffer so that
        -- float parsing errors upstream
        let buf := buf.push '#'
        let p1 := lexNextByte p.2
        match p1.1 with
        | none => ((false, 10, buf), p1.2)
        | some c1 =>
          if c1 = 73 then
            let p2 := lexNextByte p1.2
            match p2.1 with
            | none => ((false, 10, buf), p2.2)
            | some c2 =>
              if c2 = 78 then
                let p3 := lexNextByte p2.2
                match p3.1 with
                | none => ((false, 10, buf), p3.2)
                | some c3 =>
                  if c3 = 70 then ((false, 10, "inf"), p3.2)
                  else ((false, 10, buf.push (Char.ofNat c3)), p3.2)
              else ((false, 10, buf.push (Char.ofNat c2)), p2.2)
          else ((false, 10, buf.push (Char.ofNat c1)), p1.2)
      else if (charRadixVal (max radix 10) (Char.ofNat ch)).isSome then
        read_number_inner_loop fuel integer false radix
          (buf.push (Char.ofNat ch)) p.2
      else ((integer, radix, buf), put_back (some ch) p.2)
    | none => ((integer, radix, buf), put_back none p.2)

/-- `read_number_inner` — determine the radix from the first byte and scan
the rest of the literal. -/
def read_number_inner (fuel : Nat) (first : Nat) (s : LexState) :
    (Bool × Nat × String) × LexState :=
  let buf := String.mk [Char.ofNat first]
  if first = 46 then read_number_inner_loop fuel false false 10 buf s
  else if first = 48 then
    let p := lexNextByte s
    if p.1 = some 120 then read_number_inner_loop fuel true false 16 buf p.2
    else read_number_inner_loop fuel true false 8 buf (put_back p.1 p.2)
  else read_number_inner_loop fuel true false 10 buf s

/-- `read_number` — integer parse in the chosen radix, falling back to a
float (with a precision-loss warning when the decimal rendering changes)
for base-10 overflow, and to `Int(0)` / `Float(0.0)` with diagnostics on
malformed literals. -/
def read_number (fuel : Nat) (first : Nat) (s : LexState) : Token × LexState :=
  let p := read_number_inner fuel first s
  let integer := p.1.1
  let radix := p.1.2.1
  let buf := p.1.2.2
  let s := p.2
  if integer then
    match i32FromStrRadix buf radix with
    | Except.ok val => (Token.Int val, s)
    | Except.error original_error =>
      let bad : LexState → Token × LexState := fun s =>
        (Token.Int 0,
         register_error s (lexError s
           ("bad base-" ++ natToStr radix ++ " integer \"" ++ buf ++ "\": " ++
            original_error.display)))
      if radix = 10 then
        match f32FromStr buf with
        | some val =>
          let val_str := F32.display val
          let s :=
            if val_str ≠ buf then
              register_error s ((lexError s
                ("precision loss of integer constant: \"" ++ buf ++ "\" to " ++
                 val_str)).set_severity Severity.Warning)
            else s
          (Token.Float val, s)
        | none => bad s
      else bad s
  else
    match f32FromStr buf with
    | some val => (Token.Float val, s)
    | none =>
      (Token.Float (F32.finite false 0 (-149)),
       register_error s (lexError s
         ("bad float \"" ++ buf ++ "\": invalid float literal")))

/-- The collection loop of `read_ident`. -/
def read_ident_loop : Nat → List Nat → LexState → List Nat × LexState
  | 0, ident, s => (ident, s)
  | fuel + 1, ident, s =>
    let p := lexNextByte s
    match p.1 with
    | some ch =>
      if is_ident ch ∨ is_digit ch then read_ident_loop fuel (ident ++ [ch]) p.2
      else (ident, put_back (some ch) p.2)
    | none => (ident, put_back none p.2)

/-- `read_ident`. -/
def read_ident (fuel : Nat) (first : Nat) (s : LexState) : String × LexState :=
  let p := read_ident_loop fuel [first] s
  (from_latin1 p.1, p.2)

/-- `read_resource` — bytes between single quotes; unterminated literals
register a diagnostic at the starting location. -/
def read_resource_loop : Nat → Location → List Nat → LexState → List Nat × LexState
  | 0, _, buf, s => (buf, s)
  | fuel + 1, start_loc, buf, s =>
    let p := lexNextByte s
    match p.1 with
    | some ch =>
      if ch = 39 then (buf, p.2)
      else read_resource_loop fuel start_loc (buf ++ [ch]) p.2
    | none =>
      (buf, register_error p.2 (DMError.new start_loc "unterminated resource literal"))

/-- `read_resource`. -/
def read_resource (fuel : Nat) (s : LexState) : String × LexState :=
  let start_loc := s.loc
  let p := read_resource_loop fuel start_loc [] s
  (from_latin1 p.1, p.2)

/-- The scanning loop of `read_string`: accumulate until the end
delimiter matches outside a backslash; an unescaped `[` pushes an
interpolation frame and stops with `interp_opened = true`. -/
def read_string_loop :
    Nat → List Nat → Location → List Nat → Bool → Nat → LexState →
    (List Nat × Bool) × LexState
  | 0, _, _, buf, _, _, s => ((buf, false), s)
  | fuel + 1, end_, start_loc, buf, backslash, idx, s =>
    let p := lexNextByte s
    match p.1 with
    | none =>
      ((buf, false),
       register_error p.2 (DMError.new start_loc "unterminated string literal"))
    | some ch =>
      if ch = end_.getD idx 0 ∧ ¬backslash then
        let idx := idx + 1
        if idx = end_.length then ((buf, false), p.2)
        else read_string_loop fuel end_ start_loc buf backslash idx p.2
      else
        let bufIdx : List Nat × Nat :=
          if ch = end_.getD 0 0 ∧ ¬backslash then (buf ++ end_.take idx, 1)
          else (buf ++ end_.take idx, 0)
        let buf := bufIdx.1
        let idx := bufIdx.2
        if (ch = 13 ∨ ch = 10) ∧ backslash then
          let q := skip_ws fuel 2 p.2
          read_string_loop fuel end_ start_loc buf false idx (put_back q.1 q.2)
        else if backslash then
          read_string_loop fuel end_ start_loc (buf ++ [92, ch]) false idx p.2
        else if ch = 91 then
          (((buf, true),
            { p.2 with interp_stack := ⟨end_, 1⟩ :: p.2.interp_stack }))
        else if ch = 92 then
          read_string_loop fuel end_ start_loc buf true idx p.2
        else
          read_string_loop fuel end_ start_loc (buf ++ [ch]) false idx p.2

/-- `read_string` — scan a string with the given end delimiter and build
the token variant from `(interp_opened, interp_closed)`. -/
def read_string (fuel : Nat) (end_ : List Nat) (interp_closed : Bool)
    (s : LexState) : Token × LexState :=
  let start_loc := s.loc
  let p := read_string_loop fuel end_ start_loc [] false 0 s
  let string := from_latin1 p.1.1
  let tok :=
    match p.1.2, interp_closed with
    | true, true => Token.InterpStringPart string
    | true, false => Token.InterpStringBegin string
    | false, true => Token.InterpStringEnd string
    | false, false => Token.String string
  (tok, p.2)

/-- The needle-extension loop of `read_punct`: keep the entries that still
extend the needle; when none remain, put back the last byte and return
the longest previously matched entry. -/
def read_punct_loop :
    Nat → List (List Nat × Punctuation) → List Nat → LexState →
    Option Punctuation × LexState
  | 0, items, _, s => (items.head?.map (fun e => e.2), s)
  | fuel + 1, items, needle, s =>
    let candidate := items.head?.map (fun e => e.2)
    if items.length = 1 then (candidate, s)
    else
      let p := lexNextByte s
      match p.1 with
      | none => (candidate, p.2)
      | some b =>
        let needle := needle ++ [b]
        let items := items.filter (fun e => needle.isPrefixOf e.1)
        if items = [] then (candidate, put_back (some b) p.2)
        else read_punct_loop fuel items needle p.2

/-- `read_punct` — greedy longest-match over the contiguous run of table
entries whose first byte equals `first`. -/
def read_punct (fuel : Nat) (first : Nat) (s : LexState) :
    Option Punctuation × LexState :=
  let items :=
    (PUNCT_TABLE.dropWhile (fun e => e.1.headD 0 < first)).takeWhile
      (fun e => e.1.headD 0 = first)
  if items = [] then (none, s)
  else read_punct_loop fuel items [first] s

/-- Lowercase hexadecimal digits of a positive natural (fuel-first, as for
`natDigitsAux`). -/
def natHexAux : Nat → Nat → List Char
  | 0, _ => []
  | _ + 1, 0 => []
  | fuel + 1, n =>
    natHexAux fuel (n / 16) ++
      [Char.ofNat (if n % 16 < 10 then 48 + n % 16 else 87 + n % 16)]

/-- Lowercase hexadecimal rendering, as Rust's `{:x}` format. -/
def natToHexStr (n : Nat) : String :=
  if n = 0 then "0" else String.mk (natHexAux (n + 1) n)

/-- `<Lexer as Iterator>::next` (lexer.rs lines 731-837).  The two boolean
arguments are the loop-local `skip_newlines` and `found_illegal` flags,
both `false` at entry. -/
def lexNext : Nat → Bool → Bool → LexState → Option LocatedToken × LexState
  | 0, _, _, s => (none, s)
  | fuel + 1, skip_newlines, found_illegal, s =>
    let w := skip_ws fuel (if skip_newlines then 2 else 0) s
    match w.1 with
    | none =>
      -- always end with a newline
      if ¬w.2.final_newline then
        let s := { w.2 with final_newline := true }
        (some ⟨{ s.loc with column := s.loc.column + 1 },
               Token.Punct Punctuation.Newline⟩, s)
      else (none, w.2)
    | some first =>
      let s := w.2
      let loc := s.loc
      if s.directive = Directive.Stringy then
        let s := put_back (some first) { s with directive := Directive.None }
        let q := read_string fuel [10] false s
        (some ⟨loc, q.1⟩, q.2)
      else
        let q := read_punct fuel first s
        let s := q.2
        match q.1 with
        | some Punctuation.Hash =>
          if s.directive = Directive.None then
            (some ⟨loc, Token.Punct Punctuation.Hash⟩,
             { s with directive := Directive.Hash })
          else (some ⟨loc, Token.Punct Punctuation.Hash⟩, s)
        | some Punctuation.BlockComment =>
          lexNext fuel false found_illegal (skip_block_comments fuel 1 (0, 0) s)
        | some Punctuation.LineComment =>
          (some ⟨loc, Token.Punct Punctuation.Newline⟩, skip_line_comment fuel false s)
        | some Punctuation.SingleQuote =>
          let r := read_resource fuel s
          (some ⟨loc, Token.Resource r.1⟩, r.2)
        | some Punctuation.DoubleQuote =>
          let r := read_string fuel [34] false s
          (some ⟨loc, r.1⟩, r.2)
        | some Punctuation.BlockString =>
          let r := read_string fuel [34, 125] false s
          (some ⟨loc, r.1⟩, r.2)
        | some Punctuation.LBracket =>
          let s :=
            match s.interp_stack with
            | interp :: rest =>
              { s with interp_stack :=
                  { interp with bracket_depth := interp.bracket_depth + 1 } :: rest }
            | [] => s
          (some ⟨loc, Token.Punct Punctuation.LBracket⟩, s)
        | some Punctuation.RBracket =>
          (match s.interp_stack with
           | interp :: rest =>
             let s := { s with interp_stack := rest }
             let depth := interp.bracket_depth - 1
             if depth = 0 then
               let r := read_string fuel interp.end_ true s
               (some ⟨loc, r.1⟩, r.2)
             else
               (some ⟨loc, Token.Punct Punctuation.RBracket⟩,
                { s with interp_stack :=
                    { interp with bracket_depth := depth } :: rest })
           | [] => (some ⟨loc, Token.Punct Punctuation.RBracket⟩, s))
        | some v => (some ⟨loc, Token.Punct v⟩, s)
        | none =>
          if is_digit first then
            let r := read_number fuel first s
            (some ⟨loc, r.1⟩, r.2)
          else if is_ident first then
            let r := read_ident fuel first s
            let ident := r.1
            let p := lexNextByte r.2
            let s := put_back p.1 p.2
            let ws := p.1 = some 32 ∨ p.1 = some 9
            let s :=
              if s.directive = Directive.Hash then
                if ident = "warn" ∨ ident = "error" then
                  { s with directive := Directive.Stringy }
                else { s with directive := Directive.Ordinary }
              else s
            match PUNCT_TABLE.find? (fun e => from_latin1 e.1 = ident) with
            | some e => (some ⟨loc, Token.Punct e.2⟩, s)
            | none => (some ⟨loc, Token.Ident ident ws⟩, s)
          else if first = 92 then
            lexNext fuel true found_illegal { s with at_line_head := false }
          else if first = 64 then
            lexNext fuel false found_illegal s
          else
            let s :=
              if ¬found_illegal then
                register_error s (lexError s ("illegal byte 0x" ++ natToHexStr first))
              else s
            lexNext fuel false true s

/-- One call of the lexer iterator from a quiescent loop state. -/
def lexNextTok (fuel : Nat) (s : LexState) : Option LocatedToken × LexState :=
  lexNext fuel false false s

/-- Drain the lexer, collecting the emitted tokens. -/
def lexAll : Nat → LexState → List LocatedToken × LexState
  | 0, s => ([], s)
  | fuel + 1, s =>
    match lexNextTok fuel s with
    | (none, s) => ([], s)
    | (some t, s) =>
      let r := lexAll fuel s
      (t :: r.1, r.2)

/-- Tokens (without locations) of lexing the given bytes. -/
def lexTokens (fuel : Nat) (bytes : List Nat) : List Token :=
  ((lexAll fuel (initLexState 0 bytes)).1).map (fun t => t.token)

/-- Diagnostics of lexing the given bytes. -/
def lexErrors (fuel : Nat) (bytes : List Nat) : List DMError :=
  (lexAll fuel (initLexState 0 bytes)).2.errors


/-- Decimal value of a digit byte string. -/
def digitsVal (l : List Nat) : Nat := l.foldl (fun a d => a * 10 + (d - 48)) 0

/-- The remaining byte stream of a lexer state: the putback slot followed
by the unread input. -/
def remainingBytes (s : LexState) : List Nat :=
  match s.next with
  | some b => b :: s.input
  | none => s.input

/- ----------------------------------------------------------------------
Theorems.  First, preservation and unfolding lemmas about the byte-level
primitives, then the claim theorems.
---------------------------------------------------------------------- -/


theorem tracker_next_interp (s : LexState) :
    (tracker_next s).2.interp_stack = s.interp_stack := by
  obtain ⟨input, loc, ale, nx, fnl, alh, dir, interp, errs⟩ := s
  cases ale <;> cases input <;> simp [tracker_next] <;> split <;> rfl

theorem tracker_next_errors (s : LexState) :
    (tracker_next s).2.errors = s.errors := by
  obtain ⟨input, loc, ale, nx, fnl, alh, dir, interp, errs⟩ := s
  cases ale <;> cases input <;> simp [tracker_next] <;> split <;> rfl

theorem lexNextByte_interp (s : LexState) :
    (lexNextByte s).2.interp_stack = s.interp_stack := by
  unfold lexNextByte
  cases hn : s.next with
  | some b => simp
  | none =>
    have h2 := tracker_next_interp s
    rcases hp : tracker_next s with ⟨r, s2⟩
    rw [hp] at h2
    simp only [hp]
    cases r <;> simp <;> split <;> simp_all <;> split <;> simp_all

theorem lexNextByte_errors (s : LexState) :
    (lexNextByte s).2.errors = s.errors := by
  unfold lexNextByte
  cases hn : s.next with
  | some b => simp
  | none =>
    have h2 := tracker_next_errors s
    rcases hp : tracker_next s with ⟨r, s2⟩
    rw [hp] at h2
    simp only [hp]
    cases r <;> simp <;> split <;> simp_all <;> split <;> simp_all

theorem skip_ws_interp (fuel : Nat) :
    ∀ k s, (skip_ws fuel k s).2.interp_stack = s.interp_stack := by
  induction fuel with
  | zero => intro k s; simp [skip_ws]
  | succ n ih =>
    intro k s
    unfold skip_ws
    have h := lexNextByte_interp s
    rcases hp : lexNextByte s with ⟨r, s2⟩
    rw [hp] at h
    replace h : s2.interp_stack = s.interp_stack := h
    simp only [hp]
    rcases r with _ | b
    · simpa using h
    · simp only
      split
      · simp [ih, h]
      · split
        · simp [ih, h]
        · split
          · simp [ih, h]
          · simpa using h

theorem skip_ws_errors (fuel : Nat) :
    ∀ k s, (skip_ws fuel k s).2.errors = s.errors := by
  induction fuel with
  | zero => intro k s; simp [skip_ws]
  | succ n ih =>
    intro k s
    unfold skip_ws
    have h := lexNextByte_errors s
    rcases hp : lexNextByte s with ⟨r, s2⟩
    rw [hp] at h
    replace h : s2.errors = s.errors := h
    simp only [hp]
    rcases r with _ | b
    · simpa using h
    · simp only
      split
      · simp [ih, h]
      · split
        · simp [ih, h]
        · split
          · simp [ih, h]
          · simpa using h

theorem read_string_loop_stack (fuel : Nat) :
    ∀ end_ sl buf bs idx s,
      (read_string_loop fuel end_ sl buf bs idx s).2.interp_stack =
        (if (read_string_loop fuel end_ sl buf bs idx s).1.2 = true
         then ⟨end_, 1⟩ :: s.interp_stack else s.interp_stack) := by
  induction fuel with
  | zero => intro end_ sl buf bs idx s; simp [read_string_loop]
  | succ n ih =>
    intro end_ sl buf bs idx s
    unfold read_string_loop
    have h := lexNextByte_interp s
    rcases hp : lexNextByte s with ⟨r, s2⟩
    rw [hp] at h
    replace h : s2.interp_stack = s.interp_stack := h
    simp only [hp]
    rcases r with _ | ch
    · simp [register_error, h]
    · simp only
      split
      · split
        · simp [h]
        · rw [ih]; simp [h]
      · split
        · rw [ih]; simp [put_back, skip_ws_interp, h]
        · split
          · rw [ih]; simp [h]
          · split
            · simp [h]
            · split
              · rw [ih]; simp [h]
              · rw [ih]; simp [h]

theorem char_ofNat_toNat {n : Nat} (h : n < 55296) : (Char.ofNat n).toNat = n := by
  simp [Char.ofNat, Nat.isValidChar, Char.toNat, h, Char.ofNatAux]
  rfl

theorem lexNextByte_cons {s : LexState} {t : Nat} {r : List Nat}
    (hn : s.next = none) (hi : s.input = t :: r) :
    ∃ s', lexNextByte s = (some t, s') ∧ s'.input = r ∧ s'.next = none ∧
      s'.errors = s.errors ∧ s'.interp_stack = s.interp_stack ∧
      s'.final_newline = s.final_newline := by
  obtain ⟨input, loc, ale, nx, fnl, alh, dir, interp, errs⟩ := s
  subst hn hi
  cases ale <;>
    simp [lexNextByte, tracker_next] <;>
    (repeat' split) <;> simp_all

theorem lexNextByte_nil {s : LexState}
    (hn : s.next = none) (hi : s.input = []) :
    ∃ s', lexNextByte s = (none, s') ∧ s'.input = [] ∧ s'.next = none ∧
      s'.errors = s.errors ∧ s'.interp_stack = s.interp_stack ∧
      s'.final_newline = s.final_newline ∧
      s'.loc.file = s.loc.file ∧ s'.at_line_end = false ∧
      s'.loc.line = (if s.at_line_end then s.loc.line + 1 else s.loc.line) ∧
      s'.loc.column = (if s.at_line_end then 0 else s.loc.column) ∧
      s'.final_newline = s.final_newline ∧
      s'.directive = (if s.at_line_end then Directive.None else s.directive) ∧
      s'.at_line_head = (if s.at_line_end then true else s.at_line_head) ∧
      s'.interp_stack = s.interp_stack := by
  obtain ⟨input, loc, ale, nx, fnl, alh, dir, interp, errs⟩ := s
  subst hn hi
  cases ale <;> simp [lexNextByte, tracker_next]

theorem charRadixVal_digit {d : Nat} (h1 : 48 ≤ d) (h2 : d ≤ 57) :
    charRadixVal 10 (Char.ofNat d) = some (d - 48) := by
  interval_cases d <;> decide

theorem charDigitVal_digit {d : Nat} (h1 : 48 ≤ d) (h2 : d ≤ 57) :
    charDigitVal (Char.ofNat d) = some (d - 48) := by
  interval_cases d <;> decide

theorem is_digit_bounds {d : Nat} (h : is_digit d = true) : 48 ≤ d ∧ d ≤ 57 := by
  simpa [is_digit] using h

theorem i32DigitsVal_digits :
    ∀ (ds : List Nat) (acc : Nat), (∀ d ∈ ds, is_digit d = true) →
      i32DigitsVal 10 (ds.map Char.ofNat) acc =
        Except.ok (ds.foldl (fun a d => a * 10 + (d - 48)) acc) := by
  intro ds
  induction ds with
  | nil => intro acc _; simp [i32DigitsVal]
  | cons d ds ih =>
    intro acc h
    obtain ⟨h1, h2⟩ := is_digit_bounds (h d (by simp))
    simp only [List.map_cons, i32DigitsVal, charRadixVal_digit h1 h2]
    rw [ih (acc * 10 + (d - 48)) (fun x hx => h x (by simp [hx]))]
    simp

theorem takeDigits_all :
    ∀ (ds : List Nat) (acc n : Nat), (∀ d ∈ ds, is_digit d = true) →
      takeDigits (ds.map Char.ofNat) acc n =
        (ds.foldl (fun a d => a * 10 + (d - 48)) acc, n + ds.length, []) := by
  intro ds
  induction ds with
  | nil => intro acc n _; simp [takeDigits]
  | cons d ds ih =>
    intro acc n h
    obtain ⟨h1, h2⟩ := is_digit_bounds (h d (by simp))
    simp only [List.map_cons, takeDigits, charDigitVal_digit h1 h2]
    rw [ih (acc * 10 + (d - 48)) (n + 1) (fun x hx => h x (by simp [hx]))]
    simp
    omega

theorem char_ofNat_ne {n m : Nat} (hn : n < 55296) (hm : m < 55296) (h : n ≠ m) :
    Char.ofNat n ≠ Char.ofNat m := by
  intro hc
  apply h
  have := congrArg Char.toNat hc
  rwa [char_ofNat_toNat hn, char_ofNat_toNat hm] at this

theorem char_toLower_small {n : Nat} (h1 : n < 65) :
    (Char.ofNat n).toLower = Char.ofNat n := by
  have hv : (Char.ofNat n).toNat = n := char_ofNat_toNat (by omega)
  simp [Char.toLower, hv]
  omega

theorem f32FromStr_digits (first : Nat) (ds : List Nat)
    (h1 : 49 ≤ first) (h2 : first ≤ 57) (hds : ∀ d ∈ ds, is_digit d = true) :
    f32FromStr (from_latin1 (first :: ds)) =
      some (roundF32 false (digitsVal (first :: ds)) 1) := by
  have hv : (Char.ofNat first).toNat = first := char_ofNat_toNat (by omega)
  have hc : charDigitVal (Char.ofNat first) = some (first - 48) :=
    charDigitVal_digit (by omega) h2
  have hm : Char.ofNat first ≠ '-' := by
    intro h; have := congrArg Char.toNat h; rw [hv] at this; simp at this; omega
  have hp : Char.ofNat first ≠ '+' := by
    intro h; have := congrArg Char.toNat h; rw [hv] at this; simp at this; omega
  have hlow := char_toLower_small (n := first) (by omega)
  have hi' : (Char.ofNat first).toLower ≠ 'i' := by
    rw [hlow]; intro h; have := congrArg Char.toNat h; rw [hv] at this
    simp at this; omega
  have hn' : (Char.ofNat first).toLower ≠ 'n' := by
    rw [hlow]; intro h; have := congrArg Char.toNat h; rw [hv] at this
    simp at this; omega
  simp only [from_latin1, List.map_cons, f32FromStr]
  simp [takeDigits, takeDigits_all ds _ _ hds, hc, hm, hp, hi', hn', digitsVal]

theorem read_number_inner_loop_digits :
    ∀ (ds : List Nat), ∀ (rest : List Nat) (buf : String) (s : LexState) (fuel : Nat),
      (∀ d ∈ ds, is_digit d = true) →
      s.next = none → s.input = ds ++ rest →
      (∀ t, rest.head? = some t → t ≠ 95 ∧ t ≠ 46 ∧ t ≠ 101 ∧
           (charRadixVal 10 (Char.ofNat t)).isSome = false) →
      ds.length + 1 ≤ fuel →
      ∃ s', read_number_inner_loop fuel true false 10 buf s =
          ((true, 10, ⟨buf.data ++ ds.map Char.ofNat⟩), s') ∧
        s'.errors = s.errors := by
  intro ds
  induction ds with
  | nil =>
    intro rest buf s fuel _ hn hi hstop hfuel
    obtain ⟨f, rfl⟩ : ∃ f, fuel = f + 1 := ⟨fuel - 1, by omega⟩
    obtain ⟨bd⟩ := buf
    unfold read_number_inner_loop
    cases rest with
    | nil =>
      obtain ⟨s', hb, hrest⟩ := lexNextByte_nil hn (by simpa using hi)
      refine ⟨put_back none s', ?_, ?_⟩
      · simp [hb]
      · simp [put_back, hrest.2.2.1]
    | cons t r =>
      obtain ⟨s', hb, _, _, herr, _⟩ := lexNextByte_cons hn (by simpa using hi)
      obtain ⟨ht95, ht46, ht101, htd⟩ := hstop t rfl
      refine ⟨put_back (some t) s', ?_, ?_⟩
      · simp [hb, ht95, ht46, ht101, htd]
      · simp [put_back, herr]
  | cons d ds ih =>
    intro rest buf s fuel h hn hi hstop hfuel
    obtain ⟨f, rfl⟩ : ∃ f, fuel = f + 1 := ⟨fuel - 1, by omega⟩
    obtain ⟨hd48, hd57⟩ := is_digit_bounds (h d (by simp))
    obtain ⟨s1, hb, hi1, hn1, herr1, _⟩ := lexNextByte_cons hn (by simpa using hi)
    obtain ⟨s', hloop, herr'⟩ :=
      ih rest (buf.push (Char.ofNat d)) s1 f
        (fun x hx => h x (by simp [hx])) hn1 hi1 hstop (by simpa using hfuel)
    refine ⟨s', ?_, by rw [herr', herr1]⟩
    unfold read_number_inner_loop
    rw [hb]
    have hrv : charRadixVal (max 10 10) (Char.ofNat d) = some (d - 48) :=
      charRadixVal_digit hd48 hd57
    dsimp only
    rw [if_neg (show ¬d = 95 from by omega)]
    rw [if_neg (show ¬(d = 46 ∨ d = 101) from by omega)]
    rw [if_neg (show ¬((d = 43 ∨ d = 45) ∧ false = true) from by simp)]
    rw [if_neg (show ¬(d = 35 ∧ ¬true = true) from by simp)]
    rw [if_pos (show (charRadixVal (max 10 10) (Char.ofNat d)).isSome = true from by
      rw [hrv]; rfl)]
    rw [hloop]
    simp [String.push]

/-- C2: every string literal scanned by `read_string` is emitted as the
variant determined exactly by the pair (an interpolation frame was opened
by an unescaped bracket — equivalently, the interpolation stack grew by
one frame carrying the current end delimiter — and the scan was a
continuation after closing an interpolation): (F,F) String,
(T,F) InterpStringBegin, (F,T) InterpStringEnd, (T,T) InterpStringPart;
and the input double-quote a bracket b bracket-close c double-quote lexes
to InterpStringBegin "a", Ident "b", InterpStringEnd "c". -/
theorem claim_C2_interp_variants :
    (∀ (fuel : Nat) (end_ : List Nat) (closed : Bool) (s : LexState),
      ∃ str opened,
        (read_string fuel end_ closed s).1 =
          (match opened, closed with
           | true, true => Token.InterpStringPart str
           | true, false => Token.InterpStringBegin str
           | false, true => Token.InterpStringEnd str
           | false, false => Token.String str) ∧
        (read_string fuel end_ closed s).2.interp_stack =
          (if opened = true then ⟨end_, 1⟩ :: s.interp_stack else s.interp_stack)) ∧
    lexTokens 300 (strBytes "\"a[b]c\"") =
      [Token.InterpStringBegin "a", Token.Ident "b" false, Token.InterpStringEnd "c",
       Token.Punct Punctuation.Newline] ∧
    lexErrors 300 (strBytes "\"a[b]c\"") = [] := by
  refine ⟨?_, by decide, by decide⟩
  intro fuel end_ closed s
  have h := read_string_loop_stack fuel end_ s.loc [] false 0 s
  rcases hp : read_string_loop fuel end_ s.loc [] false 0 s with ⟨⟨buf, opened⟩, s2⟩
  rw [hp] at h
  replace h : s2.interp_stack =
      (if opened = true then ⟨end_, 1⟩ :: s.interp_stack else s.interp_stack) := h
  refine ⟨from_latin1 buf, opened, ?_, ?_⟩
  · simp only [read_string]
    rw [hp]
    cases opened <;> cases closed <;> rfl
  · simp only [read_string]
    rw [hp]
    exact h

/-- C8: when the underlying byte stream is exhausted, the lexer emits
exactly one synthetic Newline token at (current line, current column + 1),
and every subsequent call returns None (the state is a fixpoint on which
the iterator yields none at any fuel). -/
theorem claim_C8_final_newline (s : LexState) (fuel fuel' : Nat)
    (hi : s.input = []) (hn : s.next = none) (hf : s.final_newline = false)
    (hfuel : 2 ≤ fuel) (hfuel' : 2 ≤ fuel') :
    ∃ s', lexNextTok fuel s =
        (some ⟨⟨s.loc.file, if s.at_line_end then s.loc.line + 1 else s.loc.line,
               (if s.at_line_end then 0 else s.loc.column) + 1⟩,
          Token.Punct Punctuation.Newline⟩, s') ∧
      lexNextTok fuel' s' = (none, s') := by
  obtain ⟨f, rfl⟩ : ∃ f, fuel = f + 2 := ⟨fuel - 2, by omega⟩
  obtain ⟨g, rfl⟩ : ∃ g, fuel' = g + 2 := ⟨fuel' - 2, by omega⟩
  obtain ⟨s1, hb, hs1i, hs1n, hs1e, hs1int, hs1f, hfile, hale, hline, hcol,
    _, hdir, hhead, _⟩ := lexNextByte_nil hn hi
  have hws : skip_ws (f + 1) 0 s = (none, s1) := by
    unfold skip_ws
    rw [hb]
  refine ⟨{ s1 with final_newline := true }, ?_, ?_⟩
  · simp only [lexNextTok, lexNext]
    rw [show (if (false : Bool) = true then 2 else 0) = 0 from rfl, hws]
    simp only [hs1f, hf, Bool.false_eq_true, not_false_eq_true, if_pos]
    rcases hsl : s1.loc with ⟨a, b, c⟩
    rw [hsl] at hfile hline hcol
    simp only at hfile hline hcol
    simp only [hsl]
    subst hfile hline hcol
    rfl
  · have hb2 : lexNextByte { s1 with final_newline := true } =
        (none, { s1 with final_newline := true }) := by
      simp [lexNextByte, tracker_next, hs1n, hs1i, hale]
    simp only [lexNextTok, lexNext]
    rw [show (if (false : Bool) = true then 2 else 0) = 0 from rfl]
    have hws2 : skip_ws (g + 1) 0 { s1 with final_newline := true } =
        (none, { s1 with final_newline := true }) := by
      unfold skip_ws
      rw [hb2]
    rw [hws2]
    simp

theorem read_number_base10_overflow (first : Nat) (ds rest : List Nat) (s : LexState)
    (fuel : Nat)
    (h1 : 49 ≤ first) (h2 : first ≤ 57)
    (hds : ∀ d ∈ ds, is_digit d = true)
    (hn : s.next = none) (hi : s.input = ds ++ rest)
    (hstop : ∀ t, rest.head? = some t → t ≠ 95 ∧ t ≠ 46 ∧ t ≠ 101 ∧
           (charRadixVal 10 (Char.ofNat t)).isSome = false)
    (hfuel : ds.length + 1 ≤ fuel)
    (hover : 2 ^ 31 - 1 < digitsVal (first :: ds)) :
    ∃ val s' loc,
      f32FromStr (from_latin1 (first :: ds)) = some val ∧
      read_number fuel first s = (Token.Float val, s') ∧
      s'.errors = s.errors ++
        (if F32.display val ≠ from_latin1 (first :: ds) then
           [⟨loc, Severity.Warning,
             "precision loss of integer constant: \"" ++ from_latin1 (first :: ds) ++
               "\" to " ++ F32.display val⟩]
         else []) := by
  have hv : (Char.ofNat first).toNat = first := char_ofNat_toNat (by omega)
  have hm : Char.ofNat first ≠ '-' := by
    intro h; have := congrArg Char.toNat h; rw [hv] at this; simp at this; omega
  have hpp : Char.ofNat first ≠ '+' := by
    intro h; have := congrArg Char.toNat h; rw [hv] at this; simp at this; omega
  have hall : ∀ d ∈ first :: ds, is_digit d = true := by
    intro d hd
    rcases List.mem_cons.mp hd with h | h
    · subst h; simp [is_digit]; omega
    · exact hds d h
  obtain ⟨s1, hloop, herr1⟩ :=
    read_number_inner_loop_digits ds rest (String.mk [Char.ofNat first]) s fuel
      hds hn hi hstop hfuel
  have hbuf : (⟨(String.mk [Char.ofNat first]).data ++ ds.map Char.ofNat⟩ : String) =
      from_latin1 (first :: ds) := by
    simp [from_latin1]
  have hi32 : i32FromStrRadix (from_latin1 (first :: ds)) 10 =
      Except.error ParseIntError.PosOverflow := by
    simp only [i32FromStrRadix, from_latin1, List.map_cons]
    simp [hm, hpp]
    rw [show (Char.ofNat first :: List.map Char.ofNat ds) =
          List.map Char.ofNat (first :: ds) from by simp]
    rw [i32DigitsVal_digits (first :: ds) 0 hall]
    simp only [digitsVal] at hover
    simpa using hover
  have hf32 := f32FromStr_digits first ds h1 h2 hds
  set valE := roundF32 false (digitsVal (first :: ds)) 1 with hval
  set buf := from_latin1 (first :: ds) with hbufdef
  set msg := "precision loss of integer constant: \"" ++ buf ++ "\" to " ++
    F32.display valE with hmsg
  have hrn : read_number fuel first s =
      (Token.Float valE,
       if F32.display valE ≠ buf then
         register_error s1 ((lexError s1 msg).set_severity Severity.Warning)
       else s1) := by
    simp only [read_number, read_number_inner]
    rw [if_neg (show ¬first = 46 from by omega), if_neg (show ¬first = 48 from by omega)]
    rw [hloop]
    simp only [hbuf]
    rw [hi32]
    simp only [reduceIte]
    rw [hf32]
  refine ⟨valE, _, s1.loc, hf32, hrn, ?_⟩
  by_cases hc : F32.display valE ≠ buf
  · simp [hc, register_error, lexError, DMError.new, DMError.set_severity, herr1]
  · simp [hc, herr1]

/-- Witness for C8 at the empty input: the synthetic newline appears at
line 1, column 1, and the resulting state yields none forever. -/
theorem claim_C8_witness :
    ∃ s', lexNextTok 5 (initLexState 0 []) =
        (some ⟨⟨0, 1, 1⟩, Token.Punct Punctuation.Newline⟩, s') ∧
      lexNextTok 7 s' = (none, s') :=
  claim_C8_final_newline (initLexState 0 []) 5 7 rfl rfl rfl (by decide) (by decide)

/-- C7: a literal with leading zero is lexed in base 8 while its digits
are scanned in base max(radix, 10): `07` yields one Int(7); `08` yields
Int(0) with a `bad base-8 integer "08"` diagnostic, the invalid digit `8`
having extended the token (the scanned buffer is "08" at radix 8) rather
than split it.  The last conjunct shows the same scanning for `0x1F`. -/
theorem claim_C7_leading_zero_octal :
    lexTokens 300 (strBytes "07") = [Token.Int 7, Token.Punct Punctuation.Newline] ∧
    lexErrors 300 (strBytes "07") = [] ∧
    lexTokens 300 (strBytes "08") = [Token.Int 0, Token.Punct Punctuation.Newline] ∧
    lexErrors 300 (strBytes "08") =
      [⟨⟨0, 1, 2⟩, Severity.Error,
        "bad base-8 integer \"08\": invalid digit found in string"⟩] ∧
    "bad base-8 integer \"08\"".data <+:
        "bad base-8 integer \"08\": invalid digit found in string".data ∧
    (read_number_inner 300 48 (initLexState 0 (strBytes "8"))).1 = (true, 8, "08") ∧
    (read_number_inner 300 48 (initLexState 0 (strBytes "x1F"))).1 = (true, 16, "01F") := by
  refine ⟨by decide, by decide, by decide, by decide, by decide, by decide, by decide⟩

/-- C3, corrected: lexing `2147483648` yields one Float(2147483648.0) (the
value 8388608 * 2^8) plus a Warning precision-loss diagnostic; and in
general a base-10 integer literal that overflows i32 is retried as a
float, with the precision-loss warning emitted exactly when the float's
decimal rendering differs from the literal text. -/
theorem claim_C3_precision_loss :
    lexTokens 300 (strBytes "2147483648") =
      [Token.Float (F32.finite false 8388608 8), Token.Punct Punctuation.Newline] ∧
    (8388608 : Nat) * 2 ^ 8 = 2147483648 ∧
    lexErrors 300 (strBytes "2147483648") =
      [⟨⟨0, 1, 10⟩, Severity.Warning,
        "precision loss of integer constant: \"2147483648\" to 2147483600"⟩] ∧
    (∀ (first : Nat) (ds rest : List Nat) (s : LexState) (fuel : Nat),
      49 ≤ first → first ≤ 57 →
      (∀ d ∈ ds, is_digit d = true) →
      s.next = none → s.input = ds ++ rest →
      (∀ t, rest.head? = some t → t ≠ 95 ∧ t ≠ 46 ∧ t ≠ 101 ∧
           (charRadixVal 10 (Char.ofNat t)).isSome = false) →
      ds.length + 1 ≤ fuel →
      2 ^ 31 - 1 < digitsVal (first :: ds) →
      ∃ val s' loc,
        f32FromStr (from_latin1 (first :: ds)) = some val ∧
        read_number fuel first s = (Token.Float val, s') ∧
        s'.errors = s.errors ++
          (if F32.display val ≠ from_latin1 (first :: ds) then
             [⟨loc, Severity.Warning,
               "precision loss of integer constant: \"" ++ from_latin1 (first :: ds) ++
                 "\" to " ++ F32.display val⟩]
           else [])) := by
  refine ⟨by decide, by decide, by decide, ?_⟩
  intro first ds rest s fuel h1 h2 hds hn hi hstop hfuel hover
  exact read_number_base10_overflow first ds rest s fuel h1 h2 hds hn hi hstop hfuel hover

/-- Counterexample to C3 as frozen: `3000000000` overflows i32 and is
retried as a float, but no precision-loss warning is registered, because
the float value 11718750 * 2^8 = 3000000000 is exact and prints as the
original literal. -/
theorem claim_C3_counterexample :
    i32FromStrRadix "3000000000" 10 = Except.error ParseIntError.PosOverflow ∧
    lexTokens 300 (strBytes "3000000000") =
      [Token.Float (F32.finite false 11718750 8), Token.Punct Punctuation.Newline] ∧
    (11718750 : Nat) * 2 ^ 8 = 3000000000 ∧
    lexErrors 300 (strBytes "3000000000") = [] := by
  refine ⟨by decide, by decide, by decide, by decide⟩

/-- Witness for the general part of C3 at the literal `2147483648`. -/
theorem claim_C3_witness :
    ∃ val s' loc,
      f32FromStr (from_latin1 (50 :: strBytes "147483648")) = some val ∧
      read_number 20 50 (initLexState 0 (strBytes "147483648")) = (Token.Float val, s') ∧
      s'.errors = [] ++
        (if F32.display val ≠ from_latin1 (50 :: strBytes "147483648") then
           [⟨loc, Severity.Warning,
             "precision loss of integer constant: \"" ++ from_latin1 (50 :: strBytes "147483648") ++
               "\" to " ++ F32.display val⟩]
         else []) :=
  claim_C3_precision_loss.2.2.2 50 (strBytes "147483648") [] (initLexState 0 (strBytes "147483648")) 20
    (by decide) (by decide) (by decide) rfl (by simp [strBytes, initLexState])
    (fun t h => by simp at h) (by decide) (by decide)
